import Mathlib

/-!
Verification of the text-to-record extraction and reconciliation core of
`scraper.py` (streaming-calendar).

Strings are modelled as `List Nat` of Unicode code points, which matches
Python `str` semantics exactly for the operations the scraper uses
(indexing, `len`, lexicographic comparison, `lower`, slicing).  The
scraper's input is ASCII apart from the en/em dashes handled by the slug
generator, and all case mapping in the source only ever touches ASCII
letters, so ASCII case-mapping tables are used.
-/

namespace Scraper

/-- Code points of a Lean string literal; used to write string constants. -/
def str (s : String) : List Nat := s.data.map Char.toNat

/-- ASCII decimal digit test (`\d` for the scraper's ASCII input). -/
def isDigit (c : Nat) : Bool := 48 ≤ c && c ≤ 57

/-- Whitespace test: Python `\s` / `str.strip()` on the ASCII range. -/
def isWs (c : Nat) : Bool := c == 32 || (9 ≤ c && c ≤ 13)

/-- ASCII letter test. -/
def isAlpha (c : Nat) : Bool := (65 ≤ c && c ≤ 90) || (97 ≤ c && c ≤ 122)

/-- Python `\w` word character (ASCII range): letter, digit or underscore. -/
def isWordChar (c : Nat) : Bool := isAlpha c || isDigit c || c == 95

/-- ASCII lower-casing of one code point (Python `str.lower` on ASCII). -/
def lowerNat (c : Nat) : Nat := if 65 ≤ c && c ≤ 90 then c + 32 else c

/-- ASCII upper-casing of one code point (Python `str.upper` on ASCII). -/
def upperNat (c : Nat) : Nat := if 97 ≤ c && c ≤ 122 then c - 32 else c

/-- Lower-case a whole string. -/
def lowerAll (l : List Nat) : List Nat := l.map lowerNat

/-- Exact prefix test: `isPrefixB pre l` is true iff `pre` is a prefix of `l`. -/
def isPrefixB : List Nat → List Nat → Bool
  | [], _ => true
  | _ :: _, [] => false
  | a :: as, b :: bs => a == b && isPrefixB as bs

/-- Substring search: does `hay` contain `needle` (`needle in hay` / `re.search`
on a literal pattern)? -/
def hasSubstr : List Nat → List Nat → Bool
  | [], needle => isPrefixB needle []
  | c :: t, needle => isPrefixB needle (c :: t) || hasSubstr t needle

/-- Case-insensitive substring test, the semantics of
`re.search(literal, text, re.IGNORECASE)` for the ASCII literals of
`PLATFORM_PATTERNS`. -/
def containsCI (l needle : List Nat) : Bool := hasSubstr (lowerAll l) (lowerAll needle)

/-- Drop a prefix, case-insensitively; returns the remainder on success. -/
def stripPrefixCI : List Nat → List Nat → Option (List Nat)
  | [], l => some l
  | _ :: _, [] => none
  | n :: ns, c :: cs => if lowerNat n == lowerNat c then stripPrefixCI ns cs else none

/-- Drop an exact (case-sensitive) prefix; returns the remainder on success. -/
def stripPrefixB : List Nat → List Nat → Option (List Nat)
  | [], l => some l
  | _ :: _, [] => none
  | n :: ns, c :: cs => if n == c then stripPrefixB ns cs else none

/-- Remove trailing characters satisfying `p` (the tail end of Python
`str.strip`). -/
def dropTrailing (p : Nat → Bool) : List Nat → List Nat
  | [] => []
  | c :: rest =>
    let r := dropTrailing p rest
    if r.isEmpty && p c then [] else c :: r

/-- Python `str.strip()` (whitespace on both ends). -/
def pyStrip (l : List Nat) : List Nat := dropTrailing isWs (l.dropWhile isWs)

/-!  Platform Tagger (`PLATFORM_PATTERNS`, `extract_platform`).

Every regex in `PLATFORM_PATTERNS` is an alternation of escaped literals,
so each detector is a list of literal needles searched case-insensitively
anywhere in the line.  The list keeps the source's (insertion-ordered
dict) declaration order. -/

def PLATFORM_PATTERNS : List (List Nat × List (List Nat)) :=
  [ (str "Netflix", [str "(Netflix)"]),
    (str "Prime Video", [str "(Prime Video)"]),
    (str "HBO Max", [str "(HBO Max)", str "Max)"]),
    (str "Hulu", [str "(Hulu)"]),
    (str "Disney+", [str "(Disney+)"]),
    (str "Paramount+", [str "(Paramount+)"]),
    (str "Apple TV", [str "(Apple TV)"]),
    (str "Peacock", [str "(Peacock)"]),
    (str "Shudder", [str "(Shudder)"]),
    (str "Starz", [str "(Starz)"]),
    (str "MUBI", [str "(MUBI)"]),
    (str "VOD/Digital", [str "(VOD/Digital)", str "(PVOD)"]),
    (str "MGM+", [str "(MGM+)"]),
    (str "Criterion", [str "(Criterion)"]),
    (str "Tubi", [str "(Tubi)"]) ]

/-- Does one detector's pattern match the line (case-insensitively)? -/
def patMatches (p : List Nat × List (List Nat)) (line : List Nat) : Bool :=
  p.2.any (fun needle => containsCI line needle)

/-- First-match scan over an ordered detector list. -/
def platFirst : List (List Nat × List (List Nat)) → List Nat → Option (List Nat)
  | [], _ => none
  | p :: ps, line => if patMatches p line then some p.1 else platFirst ps line

/-- The inline detector loop of `scrape_streaming_month` (lines 399-403):
label of the first matching detector, or `none`. -/
def firstPlatform (line : List Nat) : Option (List Nat) := platFirst PLATFORM_PATTERNS line

/-- `extract_platform` (lines 215-219): first matching label, else `"Unknown"`. -/
def extract_platform (line : List Nat) : List Nat :=
  (firstPlatform line).getD (str "Unknown")

/-!  Title Slug Generator (`title_to_letterboxd_slug`, lines 50-61). -/

/-- Helper for `collapseRuns`: the Boolean records whether the previous
character was part of a run being collapsed. -/
def collapseAux (p : Nat → Bool) (rep : Nat) : Bool → List Nat → List Nat
  | _, [] => []
  | inRun, c :: rest =>
    if p c then
      if inRun then collapseAux p rep true rest
      else rep :: collapseAux p rep true rest
    else c :: collapseAux p rep false rest

/-- Replace each maximal run of characters satisfying `p` by the single
character `rep` (the shape of `re.sub(r'\s+', '-', s)` and
`re.sub(r'-+', '-', s)`). -/
def collapseRuns (p : Nat → Bool) (rep : Nat) (l : List Nat) : List Nat :=
  collapseAux p rep false l

/-- Does the whole list match `\s*\(\d{4}\)\s*$`, i.e. optional whitespace,
a parenthesized four-digit year, optional whitespace, end of string? -/
def yearTail (l : List Nat) : Bool :=
  match l.dropWhile isWs with
  | 40 :: a :: b :: c :: d :: 41 :: r =>
    isDigit a && isDigit b && isDigit c && isDigit d && r.all isWs
  | _ => false

/-- `re.sub(r'\s*\(\d{4}\)\s*$', '', title)`: delete the leftmost (hence,
because of the end anchor, the only) match of a trailing parenthesized
four-digit year with its surrounding whitespace. -/
def stripYearSuffix : List Nat → List Nat
  | [] => []
  | c :: rest => if yearTail (c :: rest) then [] else c :: stripYearSuffix rest

/-- Characters removed by `re.sub(r"[:'\"!?,.]", '', slug)`:
colon, apostrophe, double quote, bang, question mark, comma, period. -/
def isPunctRemoved (c : Nat) : Bool :=
  c == 58 || c == 39 || c == 34 || c == 33 || c == 63 || c == 44 || c == 46

/-- `re.sub(r"[:'\"!?,.]", '', slug)`. -/
def removePunct (l : List Nat) : List Nat := l.filter (fun c => !isPunctRemoved c)

/-- `re.sub(r'[–—]', '-', slug)`: en dash (U+2013) and em dash (U+2014)
become an ASCII hyphen. -/
def normDashes (l : List Nat) : List Nat :=
  l.map (fun c => if c == 8211 || c == 8212 then 45 else c)

/-- `re.sub(r'\s+', '-', slug)`. -/
def spacesToHyphens (l : List Nat) : List Nat := collapseRuns isWs 45 l

/-- `re.sub(r'-+', '-', slug)`. -/
def collapseHyphens (l : List Nat) : List Nat := collapseRuns (fun c => c == 45) 45 l

/-- `slug.strip('-')`. -/
def stripHyphens (l : List Nat) : List Nat :=
  dropTrailing (fun c => c == 45) (l.dropWhile (fun c => c == 45))

/-- `title_to_letterboxd_slug` (lines 50-61), step by step as in the source. -/
def title_to_letterboxd_slug (title : List Nat) : List Nat :=
  let t1 := stripYearSuffix title
  let slug := lowerAll t1
  let slug := removePunct slug
  let slug := normDashes slug
  let slug := spacesToHyphens slug
  let slug := collapseHyphens slug
  stripHyphens slug

/-!  Date Header Recognizer (`parse_date_header`, lines 221-228).

`parse_date_header` first deletes ordinal suffixes with
`re.sub(r'(\d+)(st|nd|rd|th)', r'\1', text)`, then runs
`datetime.strptime(clean.strip(), "%A, %B %d, %Y")` and reformats the
result with `strftime("%Y-%m-%d")`, returning `None` on any parse error.

`strptime` compiles the format to a regex: `%A`/`%B` become
case-insensitive alternations of the full English weekday/month names,
literal whitespace becomes `\s+`, `%d` matches `3[01]|[12]\d|0[1-9]|[1-9]`,
`%Y` matches exactly four digits, the whole input must be consumed, the
named weekday is not checked against the date, and constructing the
`datetime` validates the calendar day (and requires year ≥ 1). -/

def WEEKDAY_NAMES : List (List Nat) :=
  [str "Monday", str "Tuesday", str "Wednesday", str "Thursday",
   str "Friday", str "Saturday", str "Sunday"]

def MONTH_NAMES : List (List Nat) :=
  [str "January", str "February", str "March", str "April", str "May",
   str "June", str "July", str "August", str "September", str "October",
   str "November", str "December"]

/-- The two-letter ordinal suffixes recognised by the `re.sub`:
`st`, `nd`, `rd`, `th` (lower case only; the pattern is case-sensitive). -/
def isOrdPair (a b : Nat) : Bool :=
  (a == 115 && b == 116) || (a == 110 && b == 100) ||
  (a == 114 && b == 100) || (a == 116 && b == 104)

/-- Helper for `stripOrdinals`; the Boolean records whether the previous
character was a digit (so a following `st`/`nd`/`rd`/`th` pair closes a
`(\d+)(st|nd|rd|th)` match and is deleted). -/
def stripOrdAux : Bool → List Nat → List Nat
  | _, [] => []
  | _, [c] => [c]
  | prevD, c :: d :: rest2 =>
    if isDigit c then c :: stripOrdAux true (d :: rest2)
    else if prevD && isOrdPair c d then stripOrdAux false rest2
    else c :: stripOrdAux false (d :: rest2)

/-- `re.sub(r'(\d+)(st|nd|rd|th)', r'\1', text)`. -/
def stripOrdinals (l : List Nat) : List Nat := stripOrdAux false l

/-- Try the given names in order, matching case-insensitively at the head
of the input; on success return the index of the name and the remainder.
The name sets used are prefix-free, so this equals the regex alternation
`strptime` builds for `%A`/`%B`. -/
def parseNameAux : List (List Nat) → Nat → List Nat → Option (Nat × List Nat)
  | [], _, _ => none
  | n :: ns, i, l =>
    match stripPrefixCI n l with
    | some r => some (i, r)
    | none => parseNameAux ns (i + 1) l

/-- `\s+`: at least one whitespace character, consumed maximally. -/
def wsPlus : List Nat → Option (List Nat)
  | [] => none
  | c :: r => if isWs c then some (r.dropWhile isWs) else none

/-- `%d` followed by a non-digit: the maximal digit run must be one digit
with value 1-9 or two digits with value 1-31
(the alternation `3[01]|[12]\d|0[1-9]|[1-9]`). -/
def parseDayTok (l : List Nat) : Option (Nat × List Nat) :=
  match l.takeWhile isDigit with
  | [a] => if 1 ≤ a - 48 then some (a - 48, l.dropWhile isDigit) else none
  | [a, b] =>
    if 1 ≤ 10 * (a - 48) + (b - 48) && 10 * (a - 48) + (b - 48) ≤ 31 then
      some (10 * (a - 48) + (b - 48), l.dropWhile isDigit)
    else none
  | _ => none

/-- `%Y`: exactly four digits (a longer digit run leaves unconsumed digits
and the whole parse fails, since `strptime` requires the full input). -/
def parseYearTok (l : List Nat) : Option (Nat × List Nat) :=
  match l.takeWhile isDigit with
  | [a, b, c, d] =>
    some (1000 * (a - 48) + 100 * (b - 48) + 10 * (c - 48) + (d - 48), l.dropWhile isDigit)
  | _ => none

/-- The regex stage of `strptime("%A, %B %d, %Y")`: on success returns
(weekday index, month 1-12, day, year).  The weekday is parsed but not
validated against the date, exactly as in `strptime`. -/
def headerShape (l : List Nat) : Option (Nat × Nat × Nat × Nat) :=
  match parseNameAux WEEKDAY_NAMES 0 l with
  | none => none
  | some (w, r1) =>
    match r1 with
    | 44 :: r2 =>
      match wsPlus r2 with
      | none => none
      | some r3 =>
        match parseNameAux MONTH_NAMES 0 r3 with
        | none => none
        | some (m, r4) =>
          match wsPlus r4 with
          | none => none
          | some r5 =>
            match parseDayTok r5 with
            | none => none
            | some (d, r6) =>
              match r6 with
              | 44 :: r7 =>
                match wsPlus r7 with
                | none => none
                | some r8 =>
                  match parseYearTok r8 with
                  | some (y, []) => some (w, m + 1, d, y)
                  | _ => none
              | _ => none
    | _ => none

/-- Gregorian leap year, as `datetime` uses. -/
def isLeap (y : Nat) : Bool := y % 4 == 0 && (y % 100 != 0 || y % 400 == 0)

/-- Days in a month (month is 1-based). -/
def daysInMonth (m y : Nat) : Nat :=
  if m == 2 then (if isLeap y then 29 else 28)
  else if m == 4 || m == 6 || m == 9 || m == 11 then 30
  else 31

/-- The calendar validation performed by constructing the `datetime`. -/
def okDate (y m d : Nat) : Bool :=
  1 ≤ y && y ≤ 9999 && 1 ≤ d && d ≤ daysInMonth m y

/-- Two-digit zero-padded decimal. -/
def pad2 (n : Nat) : List Nat :=
  if n < 10 then [48, 48 + n] else [48 + n / 10, 48 + n % 10]

/-- Four-digit zero-padded decimal (`strftime("%Y")` for 1000-9999). -/
def pad4 (n : Nat) : List Nat :=
  [48 + n / 1000, 48 + n / 100 % 10, 48 + n / 10 % 10, 48 + n % 10]

/-- `strftime("%Y-%m-%d")`. -/
def isoChars (y m d : Nat) : List Nat := pad4 y ++ 45 :: (pad2 m ++ 45 :: pad2 d)

/-- `parse_date_header` (lines 221-228). -/
def parse_date_header (text : List Nat) : Option (List Nat) :=
  match headerShape (pyStrip (stripOrdinals text)) with
  | none => none
  | some (_, m, d, y) => if okDate y m d then some (isoChars y m d) else none

/-!  Release Block Extractor (`scrape_streaming_month`, lines 383-432). -/

/-- A candidate release record, as built at lines 424-430. -/
structure Release where
  title : List Nat
  date : List Nat
  platform : List Nat
  synopsis : List Nat
  rtype : List Nat
deriving DecidableEq, Repr

/-- The date-header gate at line 391:
`re.match(r'^(Monday|...|Sunday),\s+\w+\s+\d+', line)` (case-sensitive,
prefix match). -/
def headerGate (line : List Nat) : Bool :=
  WEEKDAY_NAMES.any (fun w =>
    match stripPrefixB w line with
    | none => false
    | some r1 =>
      match r1 with
      | 44 :: r2 =>
        (match wsPlus r2 with
         | none => false
         | some r3 =>
           let r4 := r3.dropWhile isWordChar
           decide (r3.length ≠ r4.length) &&
           (match wsPlus r4 with
            | none => false
            | some r5 =>
              match r5 with
              | c :: _ => isDigit c
              | [] => false))
      | _ => false)

/-- The lookahead stop test at line 421: `re.match(r'^(Monday|...|Sunday),', line)`. -/
def synStop (line : List Nat) : Bool :=
  WEEKDAY_NAMES.any (fun w => isPrefixB (w ++ [44]) line)

/-- `line.startswith("Synopsis:")` (line 418). -/
def synLine (line : List Nat) : Bool := isPrefixB (str "Synopsis:") line

/-- Fuel-driven helper for `removeAllOcc`; the fuel is the input length,
which suffices because each step consumes at least one character. -/
def removeAllAux (needle : List Nat) : Nat → List Nat → List Nat
  | _, [] => []
  | 0, l => l
  | fuel + 1, c :: rest =>
    match stripPrefixB needle (c :: rest) with
    | some r => removeAllAux needle fuel r
    | none => c :: removeAllAux needle fuel rest

/-- Python `s.replace(needle, '')`: delete every (non-overlapping,
left-to-right) occurrence of `needle`. -/
def removeAllOcc (needle l : List Nat) : List Nat := removeAllAux needle l.length l

/-- The synopsis lookahead body (lines 416-422), applied to the at most 4
lines following the platform line: the first line starting with
`Synopsis:` yields `line.replace("Synopsis:", "").strip()`; a line
matching the weekday stop pattern ends the scan with an empty synopsis. -/
def synLookahead : List (List Nat) → List Nat
  | [] => []
  | l :: rest =>
    if synLine l then pyStrip (removeAllOcc (str "Synopsis:") l)
    else if synStop l then []
    else synLookahead rest

/-- The title regex at line 406: `re.match(r'^(.+?)\s*\(([^)]+)\)\s*$', line)`,
followed by `.group(1).strip()`.  After trailing whitespace the line must
end with `)`; the matched `(` is the first `(` (at index ≥ 1, since the
lazy title group needs at least one character) that is followed by no
further `)` before the final one and has a nonempty group body; the title
is everything before that `(`, stripped. -/
def titleOf (line : List Nat) : Option (List Nat) :=
  let r := dropTrailing isWs line
  match r.getLast? with
  | some 41 =>
    let body := r.dropLast
    match (List.range body.length).find? (fun j =>
        decide (1 ≤ j) && (body.getD j 0 == 40) &&
        (body.drop (j + 1)).all (fun c => !(c == 41)) &&
        decide (j + 1 < body.length)) with
    | some j => some (pyStrip (body.take j))
    | none => none
  | _ => none

/-- `re.sub(r'^\[|\]$', '', title)` (line 409): remove one leading `[`
and one trailing `]`. -/
def stripBrackets (t : List Nat) : List Nat :=
  let t1 := match t with
    | 91 :: rest => rest
    | other => other
  match t1.getLast? with
  | some 93 => t1.dropLast
  | _ => t1

/-- The title rejection test at line 411:
`len(title) < 2 or title.lower() in ['synopsis', 'cast']`. -/
def rejectTitle (t : List Nat) : Bool :=
  decide (t.length < 2) || lowerAll t == str "synopsis" || lowerAll t == str "cast"

/-- Helper for `pyTitle`; the Boolean records whether the previous
character was cased (an ASCII letter here). -/
def pyTitleAux : Bool → List Nat → List Nat
  | _, [] => []
  | prevAlpha, c :: rest =>
    (if isAlpha c then (if prevAlpha then lowerNat c else upperNat c) else c)
      :: pyTitleAux (isAlpha c) rest

/-- Python `str.title()` on ASCII input. -/
def pyTitle (t : List Nat) : List Nat := pyTitleAux false t

/-- Python `str.isupper()` on ASCII input: at least one cased character
and no lower-case cased character. -/
def isupperB (t : List Nat) : Bool :=
  t.any isAlpha && t.all (fun c => !(97 ≤ c && c ≤ 122))

/-- `title.title() if title.isupper() else title` (line 425). -/
def normTitle (t : List Nat) : List Nat := if isupperB t then pyTitle t else t

/-- One step of the current-date context (lines 391-396): a line passing
the gate updates the context when `parse_date_header` succeeds, and leaves
it unchanged otherwise. -/
def stepDate (cur : Option (List Nat)) (line : List Nat) : Option (List Nat) :=
  if headerGate line then
    match parse_date_header line with
    | some d => some d
    | none => cur
  else cur

/-- The extraction loop of `scrape_streaming_month` (lines 386-432) over
the normalized line list, with the current-date context threaded
explicitly. -/
def extractStream (cur : Option (List Nat)) : List (List Nat) → List Release
  | [] => []
  | line :: rest =>
    if headerGate line then
      extractStream (stepDate cur line) rest
    else
      match firstPlatform line, cur with
      | some plat, some d =>
        (match titleOf line with
         | some t0 =>
           let t := stripBrackets t0
           if rejectTitle t then extractStream cur rest
           else
             { title := normTitle t, date := d, platform := plat,
               synopsis := synLookahead (rest.take 4), rtype := str "streaming" }
               :: extractStream cur rest
         | none => extractStream cur rest)
      | _, _ => extractStream cur rest

/-!  Source Reconciler (`main`, lines 467-483). -/

/-- Lexicographic (code-point) strict order on strings: Python `<`/`>`. -/
def lexLt : List Nat → List Nat → Bool
  | [], [] => false
  | [], _ :: _ => true
  | _ :: _, [] => false
  | a :: as, b :: bs => decide (a < b) || (a == b && lexLt as bs)

/-- Lexicographic (code-point) order on strings: Python `<=`. -/
def lexLe : List Nat → List Nat → Bool
  | [], _ => true
  | _ :: _, [] => false
  | a :: as, b :: bs => decide (a < b) || (a == b && lexLe as bs)

/-- The streaming uniqueness key: `r['title'].lower()` (line 470). -/
def streamKey (r : Release) : List Nat := lowerAll r.title

/-- First value stored under `key` in the insertion-ordered map. -/
def lookupKey : List (List Nat × Release) → List Nat → Option Release
  | [], _ => none
  | (k, v) :: t, key => if k == key then some v else lookupKey t key

/-- Replace the value stored under `key`, keeping its position
(Python dict assignment to an existing key). -/
def setKey : List (List Nat × Release) → List Nat → Release → List (List Nat × Release)
  | [], _, _ => []
  | (k, v) :: t, key, r => if k == key then (k, r) :: t else (k, v) :: setKey t key r

/-- The merge policy for a later occurrence of an already-seen key
(lines 474-480): prefer a non-`VOD/Digital` platform over `VOD/Digital`;
when neither platform is `VOD/Digital`, prefer the strictly later date;
otherwise keep the stored entry. -/
def mergeRelease (old new : Release) : Release :=
  if old.platform == str "VOD/Digital" && !(new.platform == str "VOD/Digital") then new
  else if !(old.platform == str "VOD/Digital") && !(new.platform == str "VOD/Digital") then
    (if lexLt old.date new.date then new else old)
  else old

/-- One iteration of the dedup loop (lines 469-480) on the
insertion-ordered map `seen`. -/
def seenStep (seen : List (List Nat × Release)) (r : Release) : List (List Nat × Release) :=
  match lookupKey seen (streamKey r) with
  | none => seen ++ [(streamKey r, r)]
  | some old => setKey seen (streamKey r) (mergeRelease old r)

/-- `list(seen.values())` after the whole dedup loop. -/
def seenValues (rs : List Release) : List Release :=
  (rs.foldl seenStep []).map Prod.snd

/-- Stable insertion into a list sorted ascending by date: the new element
goes before the first element it compares `≤` to, which preserves
encounter order among equal dates. -/
def insSorted (r : Release) : List Release → List Release
  | [] => [r]
  | x :: xs => if lexLe r.date x.date then r :: x :: xs else x :: insSorted r xs

/-- `unique.sort(key=lambda x: x['date'])`: a stable ascending sort by
date (Python's sort is stable, and stable sorts by a fixed key agree). -/
def sortByDate : List Release → List Release
  | [] => []
  | x :: xs => insSorted x (sortByDate xs)

/-- The whole streaming reconciler (lines 467-483): dedup with the merge
policy, then stable sort ascending by date. -/
def reconcileStream (rs : List Release) : List Release := sortByDate (seenValues rs)

/-!  Auxiliary definitions used only to state the claims. -/

/-- Spec-side notion for C8: the line ends with the given trailing
substring, case-insensitively. -/
def endsWithCI (l needle : List Nat) : Bool :=
  isPrefixB (lowerAll needle).reverse (lowerAll l).reverse

/-- Spec-side notion for C3/C4: the spec's "generic placeholder"
platforms, `VOD/Digital` and `Unknown`. -/
def specPlaceholder (p : List Nat) : Bool :=
  p == str "VOD/Digital" || p == str "Unknown"

/-- Day-of-month as written in a header line: one or two digits, no
leading zero for 1-9. -/
def dayChars (d : Nat) : List Nat :=
  if d < 10 then [48 + d] else [48 + d / 10, 48 + d % 10]

/-- The optional ordinal suffix of the day: empty, `st`, `nd`, `rd` or `th`. -/
def ordinalSuffixes : List (List Nat) := [[], str "st", str "nd", str "rd", str "th"]

/-- The canonical weekday name with the given index. -/
def weekdayName (wi : Fin 7) : List Nat :=
  WEEKDAY_NAMES.get ⟨wi.val, by cases wi; simp [WEEKDAY_NAMES]; omega⟩

/-- The canonical month name with the given index (0-based). -/
def monthName (mi : Fin 12) : List Nat :=
  MONTH_NAMES.get ⟨mi.val, by cases mi; simp [MONTH_NAMES]; omega⟩

/-- A date-header line `"Weekday, Month D<sfx>, YYYY"` built from the
canonical weekday/month names. -/
def renderHeader (wi : Fin 7) (mi : Fin 12) (d : Nat) (sfx : List Nat) (y : Nat) : List Nat :=
  weekdayName wi ++
    (44 :: 32 :: (monthName mi ++ (32 :: (dayChars d ++ (sfx ++ (44 :: 32 :: pad4 y))))))

/-- `renderHeader` without the ordinal suffix. -/
def renderPlain (wi : Fin 7) (mi : Fin 12) (d y : Nat) : List Nat :=
  renderHeader wi mi d [] y

/-!  Concrete fixtures used by witnesses and counterexamples. -/

/-- A record with the given title, platform and date. -/
def mkRel (t p d : String) : Release :=
  { title := str t, platform := str p, date := str d,
    synopsis := [], rtype := str "streaming" }

def fooVOD1 : Release := mkRel "Foo" "VOD/Digital" "2025-12-01"

def fooNflx3 : Release := mkRel "Foo" "Netflix" "2025-12-03"

def fooUnk5 : Release := mkRel "Foo" "Unknown" "2025-12-05"

def fooNflx1 : Release := mkRel "Foo" "Netflix" "2025-12-01"

def fooNflx5 : Release := mkRel "Foo" "Netflix" "2025-12-05"

/-- The spec's end-to-end fixture (§8). -/
def demoLines : List (List Nat) :=
  [str "Monday, December 1, 2025", str "Some Film (Netflix)",
   str "Synopsis: A story.", str "Another Film (Hulu)"]

/-- Fixture for C5: a line matching the weekday stop pattern that is not a
date header sits between the platform line and a `Synopsis:` line. -/
def demoLines5 : List (List Nat) :=
  [str "Monday, December 1, 2025", str "Film (Netflix)",
   str "Tuesday, junk junk", str "Synopsis: Great."]

/-- Fixture for C6: the extracted title `X` is shorter than 2 characters. -/
def demoLines6 : List (List Nat) :=
  [str "Monday, December 1, 2025", str "X (Netflix)", str "Another Film (Hulu)"]

/-!  General lemmas about the first-match scan. -/

theorem platFirst_none (line : List Nat) :
    ∀ ps : List (List Nat × List (List Nat)),
      (∀ p ∈ ps, patMatches p line = false) → platFirst ps line = none
  | [], _ => rfl
  | p :: ps, h => by
    have hp : patMatches p line = false := h p (List.mem_cons_self p ps)
    simp only [platFirst, hp, Bool.false_eq_true, if_false]
    exact platFirst_none line ps (fun q hq => h q (List.mem_cons_of_mem p hq))

theorem platFirst_first (line : List Nat) :
    ∀ (ps : List (List Nat × List (List Nat))) (i : Nat) (h : i < ps.length),
      patMatches (ps.get ⟨i, h⟩) line = true →
      (∀ (j : Nat) (hj : j < i), patMatches (ps.get ⟨j, Nat.lt_trans hj h⟩) line = false) →
      platFirst ps line = some (ps.get ⟨i, h⟩).1
  | [], i, h, _, _ => absurd h (Nat.not_lt_zero i)
  | p :: ps, 0, _, hm, _ => by simp only [List.get] at hm ⊢; simp [platFirst, hm]
  | p :: ps, i + 1, h, hm, hbefore => by
    have hp : patMatches p line = false := hbefore 0 (Nat.succ_pos i)
    simp only [platFirst, hp, Bool.false_eq_true, if_false]
    exact platFirst_first line ps i (Nat.lt_of_succ_lt_succ h) hm
      (fun j hj => hbefore (j + 1) (Nat.succ_lt_succ hj))

theorem platFirst_mem (line : List Nat) :
    ∀ (ps : List (List Nat × List (List Nat))) (lab : List Nat),
      platFirst ps line = some lab → ∃ p ∈ ps, p.1 = lab ∧ patMatches p line = true
  | [], lab, h => by simp [platFirst] at h
  | p :: ps, lab, h => by
    by_cases hp : patMatches p line = true
    · refine ⟨p, List.mem_cons_self p ps, ?_, hp⟩
      simp only [platFirst, hp, if_true] at h
      exact Option.some_inj.mp h
    · simp only [platFirst, hp, if_false] at h
      obtain ⟨q, hq, hlab, hqm⟩ := platFirst_mem line ps lab h
      exact ⟨q, List.mem_cons_of_mem p hq, hlab, hqm⟩

/-- Claim C2: the Platform Tagger evaluates the fixed ordered detector
list (Netflix first, Tubi last) case-insensitively and returns the label
of the first matching detector; a line matching two declared detectors
gets the earlier-declared label, and a line matching none gets the
sentinel `Unknown`. -/
theorem c2_platform_tagger_priority :
    ((PLATFORM_PATTERNS.map Prod.fst).head? = some (str "Netflix") ∧
     (PLATFORM_PATTERNS.map Prod.fst).getLast? = some (str "Tubi") ∧
     PLATFORM_PATTERNS.length = 15)
    ∧ (∀ line : List Nat,
        (∀ p ∈ PLATFORM_PATTERNS, patMatches p line = false) →
        extract_platform line = str "Unknown")
    ∧ (∀ (line : List Nat) (i : Nat) (h : i < PLATFORM_PATTERNS.length),
        patMatches (PLATFORM_PATTERNS.get ⟨i, h⟩) line = true →
        (∀ (j : Nat) (hj : j < i),
          patMatches (PLATFORM_PATTERNS.get ⟨j, Nat.lt_trans hj h⟩) line = false) →
        extract_platform line = (PLATFORM_PATTERNS.get ⟨i, h⟩).1) := by
  refine ⟨by decide, ?_, ?_⟩
  · intro line h
    simp [extract_platform, firstPlatform, platFirst_none line PLATFORM_PATTERNS h]
  · intro line i h hm hbefore
    simp [extract_platform, firstPlatform, platFirst_first line PLATFORM_PATTERNS i h hm hbefore]

/-- Witness for C2 at a concrete line matching both the Netflix and Hulu
detectors: the earlier-declared Netflix wins. -/
theorem c2_witness :
    extract_platform (str "Double (Netflix) (Hulu)") = str "Netflix" := by
  have h := c2_platform_tagger_priority.2.2 (str "Double (Netflix) (Hulu)") 0 (by decide)
    (by decide) (fun j hj => absurd hj (Nat.not_lt_zero j))
  simpa using h

/-- Counterexample to C8: in `"Movie Premiere (Max) 4K"` neither the
Netflix nor the Prime Video detector matches, the code tags the line
`HBO Max`, yet the line neither contains `(HBO Max)` nor ends with
`Max)` — the pattern `Max\)` matches anywhere, not only at the end. -/
theorem c8_counterexample :
    containsCI (str "Movie Premiere (Max) 4K") (str "(Netflix)") = false ∧
    containsCI (str "Movie Premiere (Max) 4K") (str "(Prime Video)") = false ∧
    extract_platform (str "Movie Premiere (Max) 4K") = str "HBO Max" ∧
    containsCI (str "Movie Premiere (Max) 4K") (str "(HBO Max)") = false ∧
    endsWithCI (str "Movie Premiere (Max) 4K") (str "Max)") = false := by decide

/-- Claim C8, amended: for every line on which the earlier Netflix and
Prime Video detectors fail, the tagger returns `HBO Max` iff the line
contains `(HBO Max)` or contains `Max)` anywhere (case-insensitively),
not only as a trailing substring. -/
theorem c8_hbo_max_detector (line : List Nat)
    (hn : containsCI line (str "(Netflix)") = false)
    (hp : containsCI line (str "(Prime Video)") = false) :
    extract_platform line = str "HBO Max" ↔
      (containsCI line (str "(HBO Max)") = true ∨ containsCI line (str "Max)") = true) := by
  have h1 : patMatches (str "Netflix", [str "(Netflix)"]) line = false := by
    simp [patMatches, hn]
  have h2 : patMatches (str "Prime Video", [str "(Prime Video)"]) line = false := by
    simp [patMatches, hp]
  constructor
  · intro h
    have hfp : firstPlatform line = some (str "HBO Max") := by
      unfold extract_platform at h
      cases hf : firstPlatform line with
      | none => rw [hf] at h; exact absurd h (by decide)
      | some lab => rw [hf] at h; simp at h; rw [← h]
    obtain ⟨p, hmem, hlab, hmatch⟩ := platFirst_mem line PLATFORM_PATTERNS _ hfp
    fin_cases hmem
    all_goals first
      | exact absurd hlab (by decide)
      | (simp only [patMatches, List.any_cons, List.any_nil, Bool.or_false,
          Bool.or_eq_true] at hmatch
         exact hmatch)
  · intro h
    have hm : patMatches (str "HBO Max", [str "(HBO Max)", str "Max)"]) line = true := by
      rcases h with h | h <;> simp [patMatches, h]
    simp only [extract_platform, firstPlatform, PLATFORM_PATTERNS, platFirst,
      h1, h2, hm, Bool.false_eq_true, if_false, if_true]
    rfl

/-- Witness for the amended C8 on a line containing `(HBO Max)`. -/
theorem c8_witness :
    extract_platform (str "The Pitt (HBO Max)") = str "HBO Max" := by
  exact (c8_hbo_max_detector (str "The Pitt (HBO Max)") (by decide) (by decide)).mpr
    (Or.inl (by decide))

/-- Updating an existing key stores the new value under that key. -/
theorem lookupKey_setKey (key : List Nat) (r : Release) :
    ∀ seen : List (List Nat × Release),
      (∃ v, lookupKey seen key = some v) →
      lookupKey (setKey seen key r) key = some r
  | [], h => by simp [lookupKey] at h
  | (k, v) :: t, h => by
    by_cases hk : (k == key) = true
    · simp [setKey, lookupKey, hk]
    · simp only [setKey, lookupKey, hk, Bool.false_eq_true, if_false] at h ⊢
      exact lookupKey_setKey key r t h

/-- Counterexample to C3: the stored entry for `foo` has the placeholder
platform `Unknown` and the new entry has the specific platform `Netflix`,
yet the reconciler keeps the stored `Unknown` entry (the code only treats
`VOD/Digital` as the placeholder, so this pair falls into the
both-not-VOD branch and the new entry's earlier date loses). -/
theorem c3_counterexample :
    specPlaceholder fooUnk5.platform = true ∧
    specPlaceholder fooNflx1.platform = false ∧
    reconcileStream [fooUnk5, fooNflx1] = [fooUnk5] ∧
    reconcileStream [fooUnk5, fooNflx1] ≠ [fooNflx1] := by decide

/-- Claim C3, amended: on a later occurrence of an already-seen key the
stored entry is replaced by the new one when the stored platform is
exactly `VOD/Digital` (only; `Unknown` is not treated as a placeholder)
and the new platform is anything other than `VOD/Digital`.  The spec's
example (a `VOD/Digital` Foo followed by a `Netflix` Foo) does yield the
Netflix entry. -/
theorem c3_vod_replacement :
    (∀ (seen : List (List Nat × Release)) (r old : Release),
      lookupKey seen (streamKey r) = some old →
      old.platform = str "VOD/Digital" →
      r.platform ≠ str "VOD/Digital" →
      lookupKey (seenStep seen r) (streamKey r) = some r)
    ∧ reconcileStream [fooVOD1, fooNflx3] = [fooNflx3] := by
  refine ⟨?_, by decide⟩
  intro seen r old hlook hold hr
  have hmerge : mergeRelease old r = r := by
    have h1 : (old.platform == str "VOD/Digital") = true := by
      simp [hold]
    have h2 : (r.platform == str "VOD/Digital") = false := by
      simpa using hr
    simp [mergeRelease, h1, h2]
  simp only [seenStep, hlook, hmerge]
  exact lookupKey_setKey (streamKey r) r seen ⟨old, hlook⟩

/-- Witness for the amended C3 on a one-element map. -/
theorem c3_witness :
    lookupKey (seenStep [(str "foo", fooVOD1)] fooNflx3) (streamKey fooNflx3)
      = some fooNflx3 := by
  exact c3_vod_replacement.1 [(str "foo", fooVOD1)] fooNflx3 fooVOD1
    (by decide) (by decide) (by decide)

/-- Counterexample to C4: the stored entry has the specific platform
`Netflix` and the new entry has the non-specific platform `Unknown`; this
is one of the claim's "remaining same-key cases", so the claim says the
first-seen entry is kept, yet the code replaces it with the `Unknown`
entry because its date is later (the code's branch tests only
`!= 'VOD/Digital'`, which `Unknown` passes). -/
theorem c4_counterexample :
    specPlaceholder fooNflx1.platform = false ∧
    specPlaceholder fooUnk5.platform = true ∧
    reconcileStream [fooNflx1, fooUnk5] = [fooUnk5] ∧
    reconcileStream [fooNflx1, fooUnk5] ≠ [fooNflx1] := by decide

/-- Claim C4, amended: on a later occurrence of an already-seen key where
both the stored and the new platform differ from `VOD/Digital`
(`Unknown` counts as such a platform here), the stored entry is replaced
exactly when the new date is strictly later; and when the new platform is
`VOD/Digital` the stored entry is kept unchanged.  The spec's example of
two specific-platform entries keeps the later date. -/
theorem c4_specific_later_date :
    (∀ (seen : List (List Nat × Release)) (r old : Release),
      lookupKey seen (streamKey r) = some old →
      old.platform ≠ str "VOD/Digital" →
      r.platform ≠ str "VOD/Digital" →
      lookupKey (seenStep seen r) (streamKey r)
        = some (if lexLt old.date r.date then r else old))
    ∧ (∀ (seen : List (List Nat × Release)) (r old : Release),
      lookupKey seen (streamKey r) = some old →
      r.platform = str "VOD/Digital" →
      lookupKey (seenStep seen r) (streamKey r) = some old)
    ∧ reconcileStream [fooNflx1, fooNflx5] = [fooNflx5] := by
  refine ⟨?_, ?_, by decide⟩
  · intro seen r old hlook hold hr
    have h1 : (old.platform == str "VOD/Digital") = false := by simpa using hold
    have h2 : (r.platform == str "VOD/Digital") = false := by simpa using hr
    have hmerge : mergeRelease old r = if lexLt old.date r.date then r else old := by
      simp [mergeRelease, h1, h2]
    simp only [seenStep, hlook, hmerge]
    exact lookupKey_setKey (streamKey r) _ seen ⟨old, hlook⟩
  · intro seen r old hlook hr
    have h2 : (r.platform == str "VOD/Digital") = true := by simp [hr]
    have hmerge : mergeRelease old r = old := by
      simp [mergeRelease, h2]
    simp only [seenStep, hlook, hmerge]
    exact lookupKey_setKey (streamKey r) _ seen ⟨old, hlook⟩

/-- Witness for the amended C4: a later-dated specific entry replaces the
stored one, and a new `VOD/Digital` entry never replaces. -/
theorem c4_witness :
    lookupKey (seenStep [(str "foo", fooNflx1)] fooNflx5) (streamKey fooNflx5)
      = some (if lexLt fooNflx1.date fooNflx5.date then fooNflx5 else fooNflx1) ∧
    lookupKey (seenStep [(str "foo", fooNflx1)] fooVOD1) (streamKey fooVOD1)
      = some fooNflx1 := by
  constructor
  · exact c4_specific_later_date.1 [(str "foo", fooNflx1)] fooNflx5 fooNflx1
      (by decide) (by decide) (by decide)
  · exact c4_specific_later_date.2.1 [(str "foo", fooNflx1)] fooVOD1 fooNflx1
      (by decide) (by decide)

/-- Claim C9: the slug generator applies exactly the listed steps in this
order — strip a trailing parenthesized four-digit year, lowercase, remove
the punctuation set, normalize en/em dashes to a hyphen, turn whitespace
runs into single hyphens, collapse hyphen runs, trim outer hyphens — and
on the spec's example produces `the-movie-part-two`. -/
theorem c9_slug_pipeline :
    (∀ t : List Nat,
      title_to_letterboxd_slug t =
        stripHyphens (collapseHyphens (spacesToHyphens
          (normDashes (removePunct (lowerAll (stripYearSuffix t)))))))
    ∧ title_to_letterboxd_slug (str "The Movie: Part Two! (2025)")
        = str "the-movie-part-two" :=
  ⟨fun _ => rfl, by decide⟩

/-- Counterexample to C10: the slug of `"foo (1234)."` is `"foo-(1234)"`
(the trailing period blocks the year-stripping pass), and slugging that
output again strips `(1234)` and yields `"foo"`, so the generator is not
idempotent. -/
theorem c10_counterexample :
    title_to_letterboxd_slug (str "foo (1234).") = str "foo-(1234)" ∧
    title_to_letterboxd_slug (title_to_letterboxd_slug (str "foo (1234)."))
      = str "foo" ∧
    title_to_letterboxd_slug (title_to_letterboxd_slug (str "foo (1234)."))
      ≠ title_to_letterboxd_slug (str "foo (1234).") := by decide

/-!  Lemmas about the slug pipeline, used to settle C10. -/

theorem lowerNat_idem (c : Nat) : lowerNat (lowerNat c) = lowerNat c := by
  unfold lowerNat
  split
  · rename_i h
    simp only [Bool.and_eq_true, decide_eq_true_eq] at h
    rw [if_neg (by simp only [Bool.and_eq_true, decide_eq_true_eq, not_and]; omega)]
  · rfl

theorem lowerAll_id {l : List Nat} (h : ∀ c ∈ l, lowerNat c = c) : lowerAll l = l := by
  induction l with
  | nil => rfl
  | cons c rest ih =>
    simp only [lowerAll, List.map_cons, h c (List.mem_cons_self c rest)]
    have := ih (fun x hx => h x (List.mem_cons_of_mem c hx))
    simpa [lowerAll] using this

theorem removePunct_id {l : List Nat} (h : ∀ c ∈ l, isPunctRemoved c = false) :
    removePunct l = l := by
  simp only [removePunct]
  induction l with
  | nil => rfl
  | cons c rest ih =>
    simp [h c (List.mem_cons_self c rest), ih (fun x hx => h x (List.mem_cons_of_mem c hx))]

theorem normDashes_id {l : List Nat}
    (h : ∀ c ∈ l, (c == 8211) = false ∧ (c == 8212) = false) : normDashes l = l := by
  induction l with
  | nil => rfl
  | cons c rest ih =>
    have hc := h c (List.mem_cons_self c rest)
    have hcond : (c == 8211 || c == 8212) = false := by rw [hc.1, hc.2]; rfl
    have ihr := ih (fun x hx => h x (List.mem_cons_of_mem c hx))
    simp only [normDashes, List.map_cons, hcond, Bool.false_eq_true, if_false] at ihr ⊢
    rw [ihr]

theorem collapseAux_id_of_none {p : Nat → Bool} {rep : Nat} {l : List Nat}
    (h : ∀ c ∈ l, p c = false) : ∀ b, collapseAux p rep b l = l := by
  induction l with
  | nil => intro b; rfl
  | cons c rest ih =>
    intro b
    simp only [collapseAux, h c (List.mem_cons_self c rest), Bool.false_eq_true, if_false]
    rw [ih (fun x hx => h x (List.mem_cons_of_mem c hx))]

theorem collapseAux_true_eq_false {p : Nat → Bool} {rep : Nat} {l : List Nat}
    (h : ∀ c, l.head? = some c → p c = false) :
    collapseAux p rep true l = collapseAux p rep false l := by
  cases l with
  | nil => rfl
  | cons c rest => simp [collapseAux, h c rfl]

theorem collapseAux45_id {l : List Nat}
    (h : List.Chain' (fun a b => ¬(a = 45 ∧ b = 45)) l) :
    collapseAux (fun c => c == 45) 45 false l = l := by
  induction l with
  | nil => rfl
  | cons c rest ih =>
    rcases List.chain'_cons'.mp h with ⟨hhd, htl⟩
    by_cases hc : c = 45
    · subst hc
      have hside : ∀ d, rest.head? = some d → ((fun x : Nat => x == 45) d) = false := by
        intro d hd
        have hne : ¬(45 = 45 ∧ d = 45) := hhd d (Option.mem_def.mpr hd)
        simp only [beq_eq_false_iff_ne, ne_eq]
        tauto
      simp only [collapseAux, beq_self_eq_true, if_true, Bool.false_eq_true, if_false]
      rw [collapseAux_true_eq_false hside, ih htl]
    · simp only [collapseAux, beq_eq_false_iff_ne.mpr hc, Bool.false_eq_true, if_false]
      rw [ih htl]

theorem head?_collapseAux45_true :
    ∀ (l : List Nat) (c : Nat),
      (collapseAux (fun x => x == 45) 45 true l).head? = some c → (c == 45) = false
  | [], c, h => by simp [collapseAux] at h
  | d :: rest, c, h => by
    by_cases hd : (d == 45) = true
    · simp only [collapseAux, hd, if_true] at h
      exact head?_collapseAux45_true rest c h
    · simp only [collapseAux, hd, Bool.false_eq_true, if_false, List.head?_cons,
        Option.some_inj] at h
      rw [← h]
      simpa using hd

theorem chain'_collapseAux45 :
    ∀ (l : List Nat) (b : Bool),
      List.Chain' (fun a c => ¬(a = 45 ∧ c = 45)) (collapseAux (fun c => c == 45) 45 b l)
  | [], _ => by simp [collapseAux]
  | d :: rest, b => by
    by_cases hd : d = 45
    · subst hd
      cases b with
      | true =>
        simpa [collapseAux] using chain'_collapseAux45 rest true
      | false =>
        simp only [collapseAux, beq_self_eq_true, if_true, Bool.false_eq_true, if_false]
        refine List.chain'_cons'.mpr ⟨?_, chain'_collapseAux45 rest true⟩
        intro c hc
        have hne := head?_collapseAux45_true rest c (Option.mem_def.mp hc)
        intro hcon
        rw [hcon.2] at hne
        simp at hne
    · have hbeq : (d == 45) = false := beq_eq_false_iff_ne.mpr hd
      simp only [collapseAux, hbeq, Bool.false_eq_true, if_false]
      refine List.chain'_cons'.mpr ⟨?_, chain'_collapseAux45 rest false⟩
      intro c _
      intro hcon
      exact hd hcon.1

theorem chain'_dropWhile {P : Nat → Nat → Prop} {q : Nat → Bool} :
    ∀ l : List Nat, List.Chain' P l → List.Chain' P (l.dropWhile q)
  | [], h => h
  | c :: rest, h => by
    by_cases hc : q c = true
    · rw [List.dropWhile_cons_of_pos hc]
      exact chain'_dropWhile rest h.tail
    · rwa [List.dropWhile_cons_of_neg (by simpa using hc)]

theorem dropTrailing_cons (p : Nat → Bool) (c : Nat) (rest : List Nat) :
    dropTrailing p (c :: rest) =
      (if (dropTrailing p rest).isEmpty && p c then [] else c :: dropTrailing p rest) := rfl

theorem head?_dropTrailing {p : Nat → Bool} :
    ∀ l : List Nat, ∀ c, (dropTrailing p l).head? = some c → l.head? = some c := by
  intro l
  cases l with
  | nil => intro c h; simp [dropTrailing] at h
  | cons d rest =>
    intro c h
    simp only [dropTrailing] at h
    split at h
    · simp at h
    · simpa using h

theorem chain'_dropTrailing {P : Nat → Nat → Prop} {q : Nat → Bool} :
    ∀ l : List Nat, List.Chain' P l → List.Chain' P (dropTrailing q l)
  | [], h => h
  | c :: rest, h => by
    rcases List.chain'_cons'.mp h with ⟨hhd, htl⟩
    simp only [dropTrailing]
    split
    · exact List.chain'_nil
    · refine List.chain'_cons'.mpr ⟨?_, chain'_dropTrailing rest htl⟩
      intro d hd
      exact hhd d (head?_dropTrailing rest d hd)

theorem getLast?_dropTrailing {p : Nat → Bool} :
    ∀ l : List Nat, ∀ c, (dropTrailing p l).getLast? = some c → p c = false
  | [], c, h => by simp [dropTrailing] at h
  | d :: rest, c, h => by
    simp only [dropTrailing] at h
    split at h
    · simp at h
    · rename_i hcond
      cases hr : dropTrailing p rest with
      | nil =>
        rw [hr] at h hcond
        simp only [List.getLast?_singleton, Option.some_inj] at h
        subst h
        simpa using hcond
      | cons e tail =>
        rw [hr] at h
        rw [List.getLast?_cons_cons] at h
        rw [← hr] at h
        exact getLast?_dropTrailing rest c h

theorem mem_dropTrailing {p : Nat → Bool} :
    ∀ l : List Nat, ∀ c, c ∈ dropTrailing p l → c ∈ l
  | [], c, h => h
  | d :: rest, c, h => by
    simp only [dropTrailing] at h
    split at h
    · simp at h
    · rcases List.mem_cons.mp h with h | h
      · exact h ▸ List.mem_cons_self d rest
      · exact List.mem_cons_of_mem d (mem_dropTrailing rest c h)

theorem dropTrailing_id {p : Nat → Bool} :
    ∀ l : List Nat, (∀ c, l.getLast? = some c → p c = false) → dropTrailing p l = l
  | [], _ => rfl
  | d :: rest, h => by
    cases rest with
    | nil =>
      have hd : p d = false := h d rfl
      simp [dropTrailing, hd]
    | cons e tail =>
      have hrest : dropTrailing p (e :: tail) = e :: tail :=
        dropTrailing_id (e :: tail) (fun c hc => h c (by rwa [List.getLast?_cons_cons]))
      rw [dropTrailing_cons, hrest]
      simp

theorem mem_collapseAux {p : Nat → Bool} {rep : Nat} :
    ∀ (l : List Nat) (b : Bool) (c : Nat),
      c ∈ collapseAux p rep b l → c = rep ∨ (c ∈ l ∧ p c = false)
  | [], _, c, h => by simp [collapseAux] at h
  | d :: rest, b, c, h => by
    by_cases hd : p d = true
    · simp only [collapseAux, hd, if_true] at h
      cases b with
      | true =>
        rcases mem_collapseAux rest true c h with h | ⟨h1, h2⟩
        · exact Or.inl h
        · exact Or.inr ⟨List.mem_cons_of_mem d h1, h2⟩
      | false =>
        rcases List.mem_cons.mp h with h | h
        · exact Or.inl h
        · rcases mem_collapseAux rest true c h with h | ⟨h1, h2⟩
          · exact Or.inl h
          · exact Or.inr ⟨List.mem_cons_of_mem d h1, h2⟩
    · simp only [collapseAux, hd, Bool.false_eq_true, if_false] at h
      rcases List.mem_cons.mp h with h | h
      · subst h
        exact Or.inr ⟨List.mem_cons_self c rest, by simpa using hd⟩
      · rcases mem_collapseAux rest false c h with h | ⟨h1, h2⟩
        · exact Or.inl h
        · exact Or.inr ⟨List.mem_cons_of_mem d h1, h2⟩

theorem mem_normDashes {l : List Nat} {c : Nat} (h : c ∈ normDashes l) :
    c = 45 ∨ (c ∈ l ∧ (c == 8211) = false ∧ (c == 8212) = false) := by
  simp only [normDashes, List.mem_map] at h
  obtain ⟨x, hx, hc⟩ := h
  cases hb : (x == 8211 || x == 8212) with
  | true =>
    left
    rw [← hc]
    simp [hb]
  | false =>
    right
    have hb1 : (x == 8211) = false := by
      cases hx1 : (x == 8211) with
      | true => rw [hx1] at hb; simp at hb
      | false => rfl
    have hb2 : (x == 8212) = false := by
      cases hx2 : (x == 8212) with
      | true => rw [hx2] at hb; simp at hb
      | false => rfl
    rw [← hc]
    simp only [hb, Bool.false_eq_true, if_false]
    exact ⟨hx, hb1, hb2⟩

/-- Every character of a slug is fixed by lower-casing, is not in the
removed punctuation set, is not an en/em dash, and is not whitespace. -/
theorem slug_char_facts (t : List Nat) :
    ∀ c ∈ title_to_letterboxd_slug t,
      lowerNat c = c ∧ isPunctRemoved c = false ∧
      (c == 8211) = false ∧ (c == 8212) = false ∧ isWs c = false := by
  intro c hc
  have hc1 : c ∈ collapseHyphens (spacesToHyphens (normDashes (removePunct
      (lowerAll (stripYearSuffix t))))) := by
    have := mem_dropTrailing _ c hc
    exact (List.dropWhile_sublist _).subset this
  rcases mem_collapseAux _ _ c hc1 with h45 | ⟨hc2, _⟩
  · subst h45
    refine ⟨by decide, by decide, by decide, by decide, by decide⟩
  · rcases mem_collapseAux _ _ c hc2 with h45 | ⟨hc3, hws⟩
    · subst h45
      refine ⟨by decide, by decide, by decide, by decide, by decide⟩
    · rcases mem_normDashes hc3 with h45 | ⟨hc4, hd1, hd2⟩
      · subst h45
        refine ⟨by decide, by decide, by decide, by decide, by decide⟩
      · have hc5 : c ∈ lowerAll (stripYearSuffix t) ∧ isPunctRemoved c = false := by
          simpa [removePunct] using hc4
        obtain ⟨hc6, hpunct⟩ := hc5
        simp only [lowerAll, List.mem_map] at hc6
        obtain ⟨x, _, hx⟩ := hc6
        exact ⟨by rw [← hx]; exact lowerNat_idem x, hpunct, hd1, hd2, hws⟩

/-- The hyphen structure of a slug: no two adjacent hyphens, and no
hyphen at either end. -/
theorem slug_hyphen_facts (t : List Nat) :
    List.Chain' (fun a b => ¬(a = 45 ∧ b = 45)) (title_to_letterboxd_slug t) ∧
    (∀ c, (title_to_letterboxd_slug t).head? = some c → c ≠ 45) ∧
    (∀ c, (title_to_letterboxd_slug t).getLast? = some c → c ≠ 45) := by
  refine ⟨?_, ?_, ?_⟩
  · exact chain'_dropTrailing _ (chain'_dropWhile _ (chain'_collapseAux45 _ false))
  · intro c hc
    have h1 := head?_dropTrailing _ c hc
    intro h45
    subst h45
    have := List.head?_dropWhile_not (fun c => c == 45) (collapseHyphens (spacesToHyphens
      (normDashes (removePunct (lowerAll (stripYearSuffix t))))))
    rw [h1] at this
    simp at this
  · intro c hc h45
    have hlast := getLast?_dropTrailing _ c hc
    rw [h45] at hlast
    simp at hlast

/-- Claim C10, amended: the slug generator is idempotent on every title
whose slug does not itself end in a parenthesized four-digit year (the
counterexample shows the unrestricted statement fails); formally, if the
year-stripping pass fixes `slug t`, then `slug (slug t) = slug t`. -/
theorem c10_slug_idempotent_cond (t : List Nat)
    (h : stripYearSuffix (title_to_letterboxd_slug t) = title_to_letterboxd_slug t) :
    title_to_letterboxd_slug (title_to_letterboxd_slug t) = title_to_letterboxd_slug t := by
  have hchars := slug_char_facts t
  obtain ⟨hchain, hhead, hlast⟩ := slug_hyphen_facts t
  set s := title_to_letterboxd_slug t with hs
  have h1 : lowerAll s = s := lowerAll_id (fun c hc => (hchars c hc).1)
  have h2 : removePunct s = s := removePunct_id (fun c hc => (hchars c hc).2.1)
  have h3 : normDashes s = s :=
    normDashes_id (fun c hc => ⟨(hchars c hc).2.2.1, (hchars c hc).2.2.2.1⟩)
  have h4 : spacesToHyphens s = s :=
    collapseAux_id_of_none (fun c hc => (hchars c hc).2.2.2.2) false
  have h5 : collapseHyphens s = s := collapseAux45_id hchain
  have h6 : stripHyphens s = s := by
    have hdw : s.dropWhile (fun c => c == 45) = s := by
      cases hcase : s with
      | nil => rfl
      | cons c rest =>
        have : c ≠ 45 := hhead c (by rw [hcase]; rfl)
        rw [List.dropWhile_cons_of_neg (by simpa using this)]
    unfold stripHyphens
    rw [hdw]
    exact dropTrailing_id s (fun c hc => by simpa using hlast c hc)
  show stripHyphens (collapseHyphens (spacesToHyphens (normDashes (removePunct
    (lowerAll (stripYearSuffix s)))))) = s
  rw [h, h1, h2, h3, h4, h5, h6]

/-- Witness for the amended C10 at a concrete title whose slug has no
trailing year parenthetical. -/
theorem c10_witness :
    title_to_letterboxd_slug (title_to_letterboxd_slug (str "Hello  World!"))
      = title_to_letterboxd_slug (str "Hello  World!") := by
  exact c10_slug_idempotent_cond (str "Hello  World!") (by decide)

/-!  Lemmas about the lexicographic date order and the stable sort (C7). -/

theorem lexLe_refl : ∀ l : List Nat, lexLe l l = true
  | [] => rfl
  | a :: as => by simp [lexLe, lexLe_refl as]

theorem lexLe_total : ∀ a b : List Nat, lexLe a b = false → lexLe b a = true
  | [], b, h => by simp [lexLe] at h
  | _ :: _, [], _ => rfl
  | a :: as, b :: bs, h => by
    simp only [lexLe, Bool.or_eq_false_iff, Bool.and_eq_false_iff] at h
    obtain ⟨h1, h2⟩ := h
    simp only [lexLe, Bool.or_eq_true, Bool.and_eq_true, decide_eq_true_eq]
    rcases h2 with h2 | h2
    · left
      have hab : ¬ a < b := by simpa using h1
      have hne : ¬ a = b := by simpa using h2
      omega
    · by_cases hab : a = b
      · right
        exact ⟨by simp [hab], lexLe_total as bs h2⟩
      · left
        have : ¬ a < b := by simpa using h1
        omega

theorem lexLe_trans : ∀ a b c : List Nat,
    lexLe a b = true → lexLe b c = true → lexLe a c = true
  | [], _, _, _, _ => rfl
  | _ :: _, [], _, h, _ => by simp [lexLe] at h
  | _ :: _, _ :: _, [], _, h => by simp [lexLe] at h
  | a :: as, b :: bs, c :: cs, h1, h2 => by
    simp only [lexLe, Bool.or_eq_true, Bool.and_eq_true, decide_eq_true_eq, beq_iff_eq]
      at h1 h2 ⊢
    rcases h1 with h1 | ⟨hab, h1⟩
    · rcases h2 with h2 | ⟨hbc, h2⟩
      · left; omega
      · left; omega
    · rcases h2 with h2 | ⟨hbc, h2⟩
      · left; omega
      · right; exact ⟨by omega, lexLe_trans as bs cs h1 h2⟩

theorem mem_insSorted (r : Release) :
    ∀ (l : List Release) (y : Release), y ∈ insSorted r l → y = r ∨ y ∈ l
  | [], y, h => by simpa [insSorted] using h
  | x :: xs, y, h => by
    by_cases hle : lexLe r.date x.date = true
    · simp only [insSorted, hle, if_true] at h
      rcases List.mem_cons.mp h with h | h
      · exact Or.inl h
      · exact Or.inr h
    · simp only [insSorted, hle, if_false] at h
      rcases List.mem_cons.mp h with h | h
      · exact Or.inr (h ▸ List.mem_cons_self x xs)
      · rcases mem_insSorted r xs y h with h | h
        · exact Or.inl h
        · exact Or.inr (List.mem_cons_of_mem x h)

theorem pairwise_insSorted (r : Release) :
    ∀ l : List Release,
      List.Pairwise (fun a b => lexLe a.date b.date = true) l →
      List.Pairwise (fun a b => lexLe a.date b.date = true) (insSorted r l)
  | [], _ => by simp [insSorted]
  | x :: xs, h => by
    rcases List.pairwise_cons.mp h with ⟨hx, hxs⟩
    by_cases hle : lexLe r.date x.date = true
    · simp only [insSorted, hle, if_true]
      refine List.pairwise_cons.mpr ⟨?_, h⟩
      intro y hy
      rcases List.mem_cons.mp hy with hy | hy
      · exact hy ▸ hle
      · exact lexLe_trans _ _ _ hle (hx y hy)
    · simp only [insSorted, hle, if_false]
      refine List.pairwise_cons.mpr ⟨?_, pairwise_insSorted r xs hxs⟩
      intro y hy
      rcases mem_insSorted r xs y hy with hy | hy
      · subst hy
        exact lexLe_total _ _ (by simpa using hle)
      · exact hx y hy

theorem pairwise_sortByDate :
    ∀ l : List Release,
      List.Pairwise (fun a b => lexLe a.date b.date = true) (sortByDate l)
  | [] => List.Pairwise.nil
  | x :: xs => pairwise_insSorted x (sortByDate xs) (pairwise_sortByDate xs)

theorem filter_insSorted_eq {r : Release} {d : List Nat} (hd : (r.date == d) = true) :
    ∀ l : List Release,
      (insSorted r l).filter (fun x => x.date == d) =
        r :: l.filter (fun x => x.date == d)
  | [] => by simp [insSorted, hd]
  | y :: ys => by
    by_cases hle : lexLe r.date y.date = true
    · simp only [insSorted, hle, if_true]
      simp [List.filter_cons, hd]
    · simp only [insSorted, hle, if_false]
      have hy : (y.date == d) = false := by
        cases hyd : (y.date == d) with
        | true =>
          have h1 : r.date = d := by simpa using hd
          have h2 : y.date = d := by simpa using hyd
          have : lexLe r.date y.date = true := by rw [h1, h2]; exact lexLe_refl d
          exact absurd this hle
        | false => rfl
      simp only [List.filter_cons, hy, Bool.false_eq_true, if_false]
      exact filter_insSorted_eq hd ys

theorem filter_insSorted_ne {r : Release} {d : List Nat} (hd : (r.date == d) = false) :
    ∀ l : List Release,
      (insSorted r l).filter (fun x => x.date == d) =
        l.filter (fun x => x.date == d)
  | [] => by simp [insSorted, hd]
  | y :: ys => by
    by_cases hle : lexLe r.date y.date = true
    · simp only [insSorted, hle, if_true]
      simp [List.filter_cons, hd]
    · simp only [insSorted, hle, Bool.false_eq_true, if_false]
      cases hyd : (y.date == d) with
      | true =>
        simp only [List.filter_cons, hyd, if_true]
        rw [filter_insSorted_ne hd ys]
      | false =>
        simp only [List.filter_cons, hyd, Bool.false_eq_true, if_false]
        exact filter_insSorted_ne hd ys

theorem filter_sortByDate (d : List Nat) :
    ∀ l : List Release,
      (sortByDate l).filter (fun x => x.date == d) = l.filter (fun x => x.date == d)
  | [] => rfl
  | x :: xs => by
    cases hx : (x.date == d) with
    | true =>
      have := filter_insSorted_eq hx (sortByDate xs)
      simp only [sortByDate, this, filter_sortByDate d xs, List.filter_cons, hx, if_true]
    | false =>
      have := filter_insSorted_ne hx (sortByDate xs)
      simp only [sortByDate, this, filter_sortByDate d xs, List.filter_cons, hx,
        Bool.false_eq_true, if_false]

/-- Claim C7: the reconciler's output is sorted ascending by date, and the
sort is stable: for each date, the output records with that date appear in
exactly the order in which their keys were inserted into the
deduplication map (`seenValues`, the dict's value list in key-insertion
order), never an order derived from titles. -/
theorem c7_reconciler_sorted_stable (rs : List Release) :
    List.Pairwise (fun a b => lexLe a.date b.date = true) (reconcileStream rs) ∧
    ∀ d : List Nat,
      (reconcileStream rs).filter (fun r => r.date == d)
        = (seenValues rs).filter (fun r => r.date == d) := by
  constructor
  · exact pairwise_sortByDate (seenValues rs)
  · intro d
    exact filter_sortByDate d (seenValues rs)

/-!  Lemmas about title normalization and the extractor (C6). -/

theorem lowerNat_upperNat (c : Nat) : lowerNat (upperNat c) = lowerNat c := by
  by_cases h : 97 ≤ c ∧ c ≤ 122
  · have h1 : upperNat c = c - 32 := by
      unfold upperNat
      rw [if_pos (by simp only [Bool.and_eq_true, decide_eq_true_eq]; exact h)]
    have h2 : lowerNat (c - 32) = c := by
      unfold lowerNat
      rw [if_pos (by simp only [Bool.and_eq_true, decide_eq_true_eq]; omega)]
      omega
    have h3 : lowerNat c = c := by
      unfold lowerNat
      rw [if_neg (by simp only [Bool.and_eq_true, decide_eq_true_eq, not_and]; omega)]
    rw [h1, h2, h3]
  · have h1 : upperNat c = c := by
      unfold upperNat
      rw [if_neg (by simp only [Bool.and_eq_true, decide_eq_true_eq]; exact h)]
    rw [h1]

theorem pyTitleAux_length : ∀ (l : List Nat) (b : Bool), (pyTitleAux b l).length = l.length
  | [], _ => rfl
  | c :: rest, b => by simp [pyTitleAux, pyTitleAux_length rest]

theorem lowerAll_pyTitleAux : ∀ (l : List Nat) (b : Bool),
    lowerAll (pyTitleAux b l) = lowerAll l
  | [], _ => rfl
  | c :: rest, b => by
    simp only [pyTitleAux, lowerAll, List.map_cons]
    congr 1
    · by_cases ha : isAlpha c = true
      · simp only [ha, if_true]
        cases b with
        | true => simp only [if_true]; exact lowerNat_idem c
        | false => simp only [Bool.false_eq_true, if_false]; exact lowerNat_upperNat c
      · simp [ha]
    · exact lowerAll_pyTitleAux rest (isAlpha c)

theorem normTitle_length (t : List Nat) : (normTitle t).length = t.length := by
  unfold normTitle
  split
  · exact pyTitleAux_length t false
  · rfl

theorem lowerAll_normTitle (t : List Nat) : lowerAll (normTitle t) = lowerAll t := by
  unfold normTitle
  split
  · exact lowerAll_pyTitleAux t false
  · rfl

theorem rejectTitle_false {t : List Nat} (h : rejectTitle t = false) :
    2 ≤ t.length ∧ lowerAll t ≠ str "synopsis" ∧ lowerAll t ≠ str "cast" := by
  simp only [rejectTitle, Bool.or_eq_false_iff, decide_eq_false_iff_not, not_lt,
    beq_eq_false_iff_ne, ne_eq] at h
  exact ⟨h.1.1, h.1.2, h.2⟩

theorem extract_titles_ok :
    ∀ (lines : List (List Nat)) (cur : Option (List Nat)) (r : Release),
      r ∈ extractStream cur lines →
      2 ≤ r.title.length ∧ lowerAll r.title ≠ str "synopsis" ∧ lowerAll r.title ≠ str "cast"
  | [], _, r, h => by simp [extractStream] at h
  | line :: rest, cur, r, h => by
    by_cases hg : headerGate line = true
    · simp only [extractStream, hg, if_true] at h
      exact extract_titles_ok rest _ r h
    · simp only [extractStream, hg, Bool.false_eq_true, if_false] at h
      cases hfp : firstPlatform line with
      | none =>
        rw [hfp] at h
        exact extract_titles_ok rest cur r h
      | some plat =>
        rw [hfp] at h
        cases hcur : cur with
        | none =>
          rw [hcur] at h
          exact extract_titles_ok rest none r h
        | some d =>
          rw [hcur] at h
          cases ht : titleOf line with
          | none =>
            rw [ht] at h
            exact extract_titles_ok rest (some d) r h
          | some t0 =>
            rw [ht] at h
            by_cases hrej : rejectTitle (stripBrackets t0) = true
            · simp only [hrej, if_true] at h
              exact extract_titles_ok rest (some d) r h
            · have hrej' : rejectTitle (stripBrackets t0) = false := by
                simpa using hrej
              simp only [hrej', Bool.false_eq_true, if_false, List.mem_cons] at h
              rcases h with h | h
              · obtain ⟨hlen, hsyn, hcast⟩ := rejectTitle_false hrej'
                subst h
                refine ⟨?_, ?_, ?_⟩
                · simpa [normTitle_length] using hlen
                · simpa [lowerAll_normTitle] using hsyn
                · simpa [lowerAll_normTitle] using hcast
              · exact extract_titles_ok rest (some d) r h

/-- Claim C6: every record the extractor emits has a title of length at
least 2 whose lower-casing is neither `synopsis` nor `cast`; and a
platform-bearing candidate line whose extracted (bracket-stripped,
stripped) title fails this test is silently discarded — the extraction
continues as if the line emitted nothing. -/
theorem c6_title_invariants :
    (∀ (lines : List (List Nat)) (cur : Option (List Nat)) (r : Release),
      r ∈ extractStream cur lines →
      2 ≤ r.title.length ∧ lowerAll r.title ≠ str "synopsis" ∧ lowerAll r.title ≠ str "cast")
    ∧ (∀ (line : List Nat) (rest : List (List Nat)) (d plat t0 : List Nat),
      headerGate line = false → firstPlatform line = some plat →
      titleOf line = some t0 → rejectTitle (stripBrackets t0) = true →
      extractStream (some d) (line :: rest) = extractStream (some d) rest) := by
  constructor
  · exact extract_titles_ok
  · intro line rest d plat t0 hg hfp ht hrej
    simp only [extractStream, hg, Bool.false_eq_true, if_false, hfp, ht, hrej, if_true]

/-- Witness for C6: on the fixture the emitted records satisfy the title
invariants, and the one-character title `X` is discarded so that only the
`Another Film` record is emitted. -/
theorem c6_witness :
    (2 ≤ (mkRel "Another Film" "Hulu" "2025-12-01").title.length ∧
      lowerAll (mkRel "Another Film" "Hulu" "2025-12-01").title ≠ str "synopsis" ∧
      lowerAll (mkRel "Another Film" "Hulu" "2025-12-01").title ≠ str "cast") ∧
    extractStream (some (str "2025-12-01")) [str "X (Netflix)", str "Another Film (Hulu)"]
      = extractStream (some (str "2025-12-01")) [str "Another Film (Hulu)"] := by
  constructor
  · exact c6_title_invariants.1 demoLines6 none
      (mkRel "Another Film" "Hulu" "2025-12-01") (by decide)
  · exact c6_title_invariants.2 (str "X (Netflix)") [str "Another Film (Hulu)"]
      (str "2025-12-01") (str "Netflix") (str "X") (by decide) (by decide)
      (by decide) (by decide)

/-!  Lemmas about the synopsis lookahead (C5). -/

theorem synLookahead_found :
    ∀ (pre : List (List Nat)) (n : Nat) (l : List Nat) (post : List (List Nat)),
      pre.length ≤ n →
      (∀ x ∈ pre, synLine x = false ∧ synStop x = false) →
      synLine l = true →
      synLookahead ((pre ++ l :: post).take (n + 1))
        = pyStrip (removeAllOcc (str "Synopsis:") l)
  | [], n, l, post, _, _, hl => by
    simp only [List.nil_append, List.take_succ_cons, synLookahead, hl, if_true]
  | x :: pre, n, l, post, hlen, hpre, hl => by
    cases n with
    | zero => simp at hlen
    | succ m =>
      have hx := hpre x (List.mem_cons_self x pre)
      simp only [List.cons_append, List.take_succ_cons, synLookahead, hx.1, hx.2,
        Bool.false_eq_true, if_false]
      exact synLookahead_found pre m l post (by simpa using hlen)
        (fun y hy => hpre y (List.mem_cons_of_mem x hy)) hl

theorem synLookahead_stop :
    ∀ (pre : List (List Nat)) (n : Nat) (l : List Nat) (post : List (List Nat)),
      pre.length ≤ n →
      (∀ x ∈ pre, synLine x = false ∧ synStop x = false) →
      synLine l = false → synStop l = true →
      synLookahead ((pre ++ l :: post).take (n + 1)) = []
  | [], n, l, post, _, _, hl, hs => by
    simp only [List.nil_append, List.take_succ_cons, synLookahead, hl, hs,
      Bool.false_eq_true, if_false, if_true]
  | x :: pre, n, l, post, hlen, hpre, hl, hs => by
    cases n with
    | zero => simp at hlen
    | succ m =>
      have hx := hpre x (List.mem_cons_self x pre)
      simp only [List.cons_append, List.take_succ_cons, synLookahead, hx.1, hx.2,
        Bool.false_eq_true, if_false]
      exact synLookahead_stop pre m l post (by simpa using hlen)
        (fun y hy => hpre y (List.mem_cons_of_mem x hy)) hl hs

theorem synLookahead_nothing :
    ∀ (ls : List (List Nat)) (n : Nat),
      (∀ x ∈ ls.take n, synLine x = false ∧ synStop x = false) →
      synLookahead (ls.take n) = []
  | _, 0, _ => rfl
  | [], _ + 1, _ => rfl
  | x :: ls, n + 1, h => by
    have hx := h x (by simp [List.take_succ_cons])
    simp only [List.take_succ_cons, synLookahead, hx.1, hx.2, Bool.false_eq_true, if_false]
    exact synLookahead_nothing ls n
      (fun y hy => h y (by simp only [List.take_succ_cons, List.mem_cons]; exact Or.inr hy))

/-- Counterexample to C5: in the fixture the line after the platform line
is `"Tuesday, junk junk"` — it matches the lookahead's weekday stop
pattern but is not a date-header line (`parse_date_header` rejects it and
it does not even pass the extractor's own header gate) — and a
`Synopsis:` line follows within the 4-line window; the claim therefore
requires the synopsis `Great.`, yet the code emits an empty synopsis. -/
theorem c5_counterexample :
    (extractStream none demoLines5).map Release.synopsis = [[]] ∧
    parse_date_header (str "Tuesday, junk junk") = none ∧
    headerGate (str "Tuesday, junk junk") = false ∧
    synLine (str "Synopsis: Great.") = true ∧
    synStop (str "Tuesday, junk junk") = true := by decide

/-- Claim C5, amended: for an emitted candidate the lookahead inspects at
most the 4 lines following the platform line; the scan stops at the first
line matching the weekday-comma stop pattern (whether or not that line is
a valid date header), emitting an empty synopsis; a line beginning with
`Synopsis:` found before any stop line yields, as the record's synopsis,
the line with every occurrence of `Synopsis:` removed and surrounding
whitespace stripped (not literally the remainder after the prefix); if
neither occurs within the window the synopsis is empty. -/
theorem c5_synopsis_lookahead :
    (∀ (line : List Nat) (rest : List (List Nat)) (d plat t0 : List Nat),
      headerGate line = false → firstPlatform line = some plat →
      titleOf line = some t0 → rejectTitle (stripBrackets t0) = false →
      extractStream (some d) (line :: rest)
        = { title := normTitle (stripBrackets t0), date := d, platform := plat,
            synopsis := synLookahead (rest.take 4), rtype := str "streaming" }
          :: extractStream (some d) rest)
    ∧ (∀ (pre : List (List Nat)) (l : List Nat) (post : List (List Nat)),
      pre.length ≤ 3 →
      (∀ x ∈ pre, synLine x = false ∧ synStop x = false) →
      synLine l = true →
      synLookahead ((pre ++ l :: post).take 4)
        = pyStrip (removeAllOcc (str "Synopsis:") l))
    ∧ (∀ (pre : List (List Nat)) (l : List Nat) (post : List (List Nat)),
      pre.length ≤ 3 →
      (∀ x ∈ pre, synLine x = false ∧ synStop x = false) →
      synLine l = false → synStop l = true →
      synLookahead ((pre ++ l :: post).take 4) = [])
    ∧ (∀ ls : List (List Nat),
      (∀ x ∈ ls.take 4, synLine x = false ∧ synStop x = false) →
      synLookahead (ls.take 4) = []) := by
  refine ⟨?_, ?_, ?_, ?_⟩
  · intro line rest d plat t0 hg hfp ht hrej
    simp only [extractStream, hg, Bool.false_eq_true, if_false, hfp, ht, hrej, if_false]
  · intro pre l post hlen hpre hl
    exact synLookahead_found pre 3 l post hlen hpre hl
  · intro pre l post hlen hpre hl hs
    exact synLookahead_stop pre 3 l post hlen hpre hl hs
  · intro ls h
    exact synLookahead_nothing ls 4 h

/-- Witness for the amended C5 on the spec's own fixture lines. -/
theorem c5_witness :
    extractStream (some (str "2025-12-01"))
        (str "Some Film (Netflix)" :: [str "Synopsis: A story."])
      = { title := normTitle (stripBrackets (str "Some Film")),
          date := str "2025-12-01", platform := str "Netflix",
          synopsis := synLookahead ([str "Synopsis: A story."].take 4),
          rtype := str "streaming" }
        :: extractStream (some (str "2025-12-01")) [str "Synopsis: A story."] ∧
    synLookahead (([] ++ str "Synopsis: A story." :: []).take 4)
      = pyStrip (removeAllOcc (str "Synopsis:") (str "Synopsis: A story.")) ∧
    synLookahead ((str "Monday, December 8, 2025" :: []).take 4) = [] := by
  refine ⟨?_, ?_, ?_⟩
  · exact c5_synopsis_lookahead.1 (str "Some Film (Netflix)") [str "Synopsis: A story."]
      (str "2025-12-01") (str "Netflix") (str "Some Film")
      (by decide) (by decide) (by decide) (by decide)
  · exact c5_synopsis_lookahead.2.1 [] (str "Synopsis: A story.") []
      (by decide) (by decide) (by decide)
  · exact c5_synopsis_lookahead.2.2.1 [] (str "Monday, December 8, 2025") []
      (by decide) (by decide) (by decide) (by decide)

/-!  Lemmas for the Date Header Recognizer (C1). -/

theorem isDigit_add48 {k : Nat} (h : k ≤ 9) : isDigit (48 + k) = true := by
  simp only [isDigit, Bool.and_eq_true, decide_eq_true_eq]
  omega

theorem isWs_add48 (k : Nat) : isWs (48 + k) = false := by
  simp only [isWs, Bool.or_eq_false_iff, Bool.and_eq_false_iff, beq_eq_false_iff_ne, ne_eq]
  constructor
  · omega
  · right
    simp only [decide_eq_false_iff_not]
    omega

theorem dayChars_digits (d : Nat) (hd : d ≤ 31) : ∀ c ∈ dayChars d, isDigit c = true := by
  intro c hc
  unfold dayChars at hc
  split at hc
  · rcases List.mem_singleton.mp hc with rfl
    exact isDigit_add48 (by omega)
  · rcases List.mem_cons.mp hc with rfl | hc
    · exact isDigit_add48 (by omega)
    · rcases List.mem_singleton.mp hc with rfl
      exact isDigit_add48 (by omega)

theorem pad4_digits (y : Nat) (hy : y ≤ 9999) : ∀ c ∈ pad4 y, isDigit c = true := by
  intro c hc
  simp only [pad4, List.mem_cons, List.mem_singleton, List.not_mem_nil, or_false] at hc
  rcases hc with rfl | rfl | rfl | rfl
  · exact isDigit_add48 (by omega)
  · exact isDigit_add48 (by omega)
  · exact isDigit_add48 (by omega)
  · exact isDigit_add48 (by omega)

theorem weekday_no_digit (wi : Fin 7) : ∀ c ∈ weekdayName wi, isDigit c = false := by
  revert wi
  decide

theorem month_no_digit (mi : Fin 12) : ∀ c ∈ monthName mi, isDigit c = false := by
  revert mi
  decide

theorem stripOrdAux_cons_digit (b : Bool) (c : Nat) (l : List Nat) (hc : isDigit c = true) :
    stripOrdAux b (c :: l) = c :: stripOrdAux true l := by
  cases l with
  | nil => simp [stripOrdAux]
  | cons d rest2 => simp [stripOrdAux, hc]

theorem stripOrdAux_false_cons (c : Nat) (l : List Nat) (hc : isDigit c = false) :
    stripOrdAux false (c :: l) = c :: stripOrdAux false l := by
  cases l with
  | nil => simp [stripOrdAux, hc]
  | cons d rest2 => simp [stripOrdAux, hc]

theorem stripOrdAux_true_pair (c d : Nat) (l : List Nat)
    (hc : isDigit c = false) (hp : isOrdPair c d = true) :
    stripOrdAux true (c :: d :: l) = stripOrdAux false l := by
  simp [stripOrdAux, hc, hp]

theorem stripOrdAux_true_nopair (c d : Nat) (l : List Nat)
    (hc : isDigit c = false) (hp : isOrdPair c d = false) :
    stripOrdAux true (c :: d :: l) = c :: stripOrdAux false (d :: l) := by
  simp [stripOrdAux, hc, hp]

theorem stripOrdAux_false_append :
    ∀ (l rest : List Nat), (∀ c ∈ l, isDigit c = false) →
      stripOrdAux false (l ++ rest) = l ++ stripOrdAux false rest
  | [], _, _ => rfl
  | c :: l, rest, h => by
    rw [List.cons_append, stripOrdAux_false_cons c _ (h c (List.mem_cons_self c l)),
      stripOrdAux_false_append l rest (fun x hx => h x (List.mem_cons_of_mem c hx)),
      List.cons_append]

theorem stripOrdAux_digits :
    ∀ (ds : List Nat) (b : Bool) (tail : List Nat),
      ds ≠ [] → (∀ c ∈ ds, isDigit c = true) →
      stripOrdAux b (ds ++ tail) = ds ++ stripOrdAux true tail
  | [], _, _, hne, _ => absurd rfl hne
  | c :: ds, b, tail, _, h => by
    rw [List.cons_append, stripOrdAux_cons_digit b c _ (h c (List.mem_cons_self c ds))]
    cases hds : ds with
    | nil =>
      subst hds
      simp
    | cons d ds2 =>
      rw [← hds,
        stripOrdAux_digits ds true tail (by simp [hds])
          (fun x hx => h x (List.mem_cons_of_mem c hx)),
        List.cons_append]

theorem stripOrdAux_pad4 (y : Nat) (hy : y ≤ 9999) :
    stripOrdAux false (pad4 y) = pad4 y := by
  have h := stripOrdAux_digits (pad4 y) false [] (by simp [pad4]) (pad4_digits y hy)
  simpa using h

theorem stripOrd_tail (d y : Nat) (sfx : List Nat)
    (hd2 : d ≤ 31) (hy : y ≤ 9999) (hs : sfx ∈ ordinalSuffixes) :
    stripOrdAux false (dayChars d ++ (sfx ++ (44 :: 32 :: pad4 y)))
      = dayChars d ++ (44 :: 32 :: pad4 y) := by
  have hne : dayChars d ≠ [] := by
    unfold dayChars
    split <;> simp
  have hcomma : stripOrdAux false (44 :: 32 :: pad4 y) = 44 :: 32 :: pad4 y := by
    rw [stripOrdAux_false_cons 44 _ (by decide), stripOrdAux_false_cons 32 _ (by decide),
      stripOrdAux_pad4 y hy]
  rw [stripOrdAux_digits (dayChars d) false _ hne (dayChars_digits d hd2)]
  congr 1
  fin_cases hs
  · rw [List.nil_append, stripOrdAux_true_nopair 44 32 _ (by decide) (by decide),
      stripOrdAux_false_cons 32 _ (by decide), stripOrdAux_pad4 y hy]
  · rw [show str "st" ++ (44 :: 32 :: pad4 y) = 115 :: 116 :: (44 :: 32 :: pad4 y) from rfl,
      stripOrdAux_true_pair 115 116 _ (by decide) (by decide), hcomma]
  · rw [show str "nd" ++ (44 :: 32 :: pad4 y) = 110 :: 100 :: (44 :: 32 :: pad4 y) from rfl,
      stripOrdAux_true_pair 110 100 _ (by decide) (by decide), hcomma]
  · rw [show str "rd" ++ (44 :: 32 :: pad4 y) = 114 :: 100 :: (44 :: 32 :: pad4 y) from rfl,
      stripOrdAux_true_pair 114 100 _ (by decide) (by decide), hcomma]
  · rw [show str "th" ++ (44 :: 32 :: pad4 y) = 116 :: 104 :: (44 :: 32 :: pad4 y) from rfl,
      stripOrdAux_true_pair 116 104 _ (by decide) (by decide), hcomma]

theorem stripOrd_render (wi : Fin 7) (mi : Fin 12) (d y : Nat) (sfx : List Nat)
    (hd2 : d ≤ 31) (hy : y ≤ 9999) (hs : sfx ∈ ordinalSuffixes) :
    stripOrdinals (renderHeader wi mi d sfx y) = renderPlain wi mi d y := by
  unfold stripOrdinals renderHeader
  rw [stripOrdAux_false_append (weekdayName wi) _ (weekday_no_digit wi),
    stripOrdAux_false_cons 44 _ (by decide), stripOrdAux_false_cons 32 _ (by decide),
    stripOrdAux_false_append (monthName mi) _ (month_no_digit mi),
    stripOrdAux_false_cons 32 _ (by decide),
    stripOrd_tail d y sfx hd2 hy hs]
  simp [renderPlain, renderHeader]

theorem parseName_weekday (wi : Fin 7) (rest : List Nat) :
    parseNameAux WEEKDAY_NAMES 0 (weekdayName wi ++ rest) = some (wi.val, rest) := by
  fin_cases wi <;> rfl

theorem parseName_month (mi : Fin 12) (rest : List Nat) :
    parseNameAux MONTH_NAMES 0 (monthName mi ++ rest) = some (mi.val, rest) := by
  fin_cases mi <;> rfl

theorem dropWhile_month (mi : Fin 12) (rest : List Nat) :
    (monthName mi ++ rest).dropWhile isWs = monthName mi ++ rest := by
  fin_cases mi <;> rfl

theorem dropWhile_weekday (wi : Fin 7) (rest : List Nat) :
    (weekdayName wi ++ rest).dropWhile isWs = weekdayName wi ++ rest := by
  fin_cases wi <;> rfl

theorem getLast?_append_right :
    ∀ (q l : List Nat), l ≠ [] → (q ++ l).getLast? = l.getLast?
  | [], _, _ => rfl
  | c :: q, l, h => by
    rw [List.cons_append]
    cases hql : q ++ l with
    | nil => exact absurd (List.append_eq_nil.mp hql).2 h
    | cons e tail =>
      have hrec := getLast?_append_right q l h
      rw [hql] at hrec
      rw [List.getLast?_cons_cons]
      exact hrec

theorem pyStrip_render (wi : Fin 7) (mi : Fin 12) (d y : Nat) :
    pyStrip (renderPlain wi mi d y) = renderPlain wi mi d y := by
  unfold pyStrip
  have h1 : (renderPlain wi mi d y).dropWhile isWs = renderPlain wi mi d y := by
    have := dropWhile_weekday wi
      (44 :: 32 :: (monthName mi ++ (32 :: (dayChars d ++ (44 :: 32 :: pad4 y)))))
    simpa [renderPlain, renderHeader] using this
  rw [h1]
  apply dropTrailing_id
  intro c hc
  have hsplit : renderPlain wi mi d y =
      (weekdayName wi ++ 44 :: 32 :: (monthName mi ++ 32 :: (dayChars d ++
        [44, 32, 48 + y / 1000, 48 + y / 100 % 10, 48 + y / 10 % 10]))) ++ [48 + y % 10] := by
    simp [renderPlain, renderHeader, pad4]
  rw [hsplit, getLast?_append_right _ _ (by simp)] at hc
  simp only [List.getLast?_singleton, Option.some_inj] at hc
  rw [← hc]
  exact isWs_add48 (y % 10)

theorem dropWhile_isWs_day (d : Nat) (rest : List Nat) :
    (dayChars d ++ rest).dropWhile isWs = dayChars d ++ rest := by
  unfold dayChars
  split
  · rw [List.cons_append, List.dropWhile_cons_of_neg (by simp [isWs_add48])]
  · rw [List.cons_append, List.dropWhile_cons_of_neg (by simp [isWs_add48])]

theorem dropWhile_isWs_pad4 (y : Nat) :
    (pad4 y).dropWhile isWs = pad4 y := by
  unfold pad4
  rw [List.dropWhile_cons_of_neg (by simp [isWs_add48])]

theorem takeWhile_digits_stop :
    ∀ (ds : List Nat) (c : Nat) (rest : List Nat),
      (∀ x ∈ ds, isDigit x = true) → isDigit c = false →
      (ds ++ c :: rest).takeWhile isDigit = ds ∧
      (ds ++ c :: rest).dropWhile isDigit = c :: rest
  | [], c, rest, _, hc => by
    constructor
    · rw [List.nil_append, List.takeWhile_cons_of_neg (by simp [hc])]
    · rw [List.nil_append, List.dropWhile_cons_of_neg (by simp [hc])]
  | x :: ds, c, rest, h, hc => by
    have hx : isDigit x = true := h x (List.mem_cons_self x ds)
    obtain ⟨ht, hd⟩ := takeWhile_digits_stop ds c rest
      (fun z hz => h z (List.mem_cons_of_mem x hz)) hc
    constructor
    · rw [List.cons_append, List.takeWhile_cons_of_pos (by simp [hx]), ht]
    · rw [List.cons_append, List.dropWhile_cons_of_pos (by simp [hx]), hd]

theorem parseDayTok_render (d : Nat) (hd1 : 1 ≤ d) (hd2 : d ≤ 31) (r : List Nat) :
    parseDayTok (dayChars d ++ 44 :: r) = some (d, 44 :: r) := by
  have hdig := dayChars_digits d hd2
  obtain ⟨ht, hd⟩ := takeWhile_digits_stop (dayChars d) 44 r hdig (by decide)
  by_cases h10 : d < 10
  · have hday : dayChars d = [48 + d] := by simp [dayChars, h10]
    rw [hday] at ht hd ⊢
    simp only [parseDayTok, ht, hd]
    have harith : 48 + d - 48 = d := by omega
    rw [harith, if_pos hd1]
  · have hday : dayChars d = [48 + d / 10, 48 + d % 10] := by
      simp [dayChars, h10]
    rw [hday] at ht hd ⊢
    simp only [parseDayTok, ht, hd]
    have ha : 48 + d / 10 - 48 = d / 10 := by omega
    have hb : 48 + d % 10 - 48 = d % 10 := by omega
    rw [ha, hb]
    have harith : 10 * (d / 10) + d % 10 = d := by omega
    rw [harith, if_pos (by simp only [Bool.and_eq_true, decide_eq_true_eq]; omega)]

theorem parseYearTok_render (y : Nat) (hy : y ≤ 9999) :
    parseYearTok (pad4 y) = some (y, []) := by
  have h1 : isDigit (48 + y / 1000) = true := isDigit_add48 (by omega)
  have h2 : isDigit (48 + y / 100 % 10) = true := isDigit_add48 (by omega)
  have h3 : isDigit (48 + y / 10 % 10) = true := isDigit_add48 (by omega)
  have h4 : isDigit (48 + y % 10) = true := isDigit_add48 (by omega)
  have ht : List.takeWhile isDigit
      [48 + y / 1000, 48 + y / 100 % 10, 48 + y / 10 % 10, 48 + y % 10]
      = [48 + y / 1000, 48 + y / 100 % 10, 48 + y / 10 % 10, 48 + y % 10] := by
    rw [List.takeWhile_cons_of_pos (by simp [h1]), List.takeWhile_cons_of_pos (by simp [h2]),
      List.takeWhile_cons_of_pos (by simp [h3]), List.takeWhile_cons_of_pos (by simp [h4])]
    rfl
  have hd : List.dropWhile isDigit
      [48 + y / 1000, 48 + y / 100 % 10, 48 + y / 10 % 10, 48 + y % 10] = [] := by
    rw [List.dropWhile_cons_of_pos (by simp [h1]), List.dropWhile_cons_of_pos (by simp [h2]),
      List.dropWhile_cons_of_pos (by simp [h3]), List.dropWhile_cons_of_pos (by simp [h4])]
    rfl
  simp only [parseYearTok, pad4, ht, hd]
  have harith : 1000 * (48 + y / 1000 - 48) + 100 * (48 + y / 100 % 10 - 48)
      + 10 * (48 + y / 10 % 10 - 48) + (48 + y % 10 - 48) = y := by omega
  rw [harith]

theorem headerShape_render (wi : Fin 7) (mi : Fin 12) (d y : Nat)
    (hd1 : 1 ≤ d) (hd2 : d ≤ 31) (hy : y ≤ 9999) :
    headerShape (renderPlain wi mi d y) = some (wi.val, mi.val + 1, d, y) := by
  have e0 : renderPlain wi mi d y = weekdayName wi ++
      (44 :: 32 :: (monthName mi ++ (32 :: (dayChars d ++ (44 :: 32 :: pad4 y))))) := by
    simp [renderPlain, renderHeader]
  have hwp1 : wsPlus (32 :: (monthName mi ++ (32 :: (dayChars d ++ (44 :: 32 :: pad4 y)))))
      = some (monthName mi ++ (32 :: (dayChars d ++ (44 :: 32 :: pad4 y)))) := by
    simp only [wsPlus]
    rw [if_pos (by decide), dropWhile_month]
  have hwp2 : wsPlus (32 :: (dayChars d ++ (44 :: 32 :: pad4 y)))
      = some (dayChars d ++ (44 :: 32 :: pad4 y)) := by
    simp only [wsPlus]
    rw [if_pos (by decide), dropWhile_isWs_day]
  have hwp3 : wsPlus (32 :: pad4 y) = some (pad4 y) := by
    simp only [wsPlus]
    rw [if_pos (by decide), dropWhile_isWs_pad4]
  have hday := parseDayTok_render d hd1 hd2 (32 :: pad4 y)
  have hyear := parseYearTok_render y hy
  rw [e0]
  simp only [headerShape, parseName_weekday, hwp1, parseName_month, hwp2, hday, hwp3, hyear]

theorem parse_date_header_render (wi : Fin 7) (mi : Fin 12) (d y : Nat) (sfx : List Nat)
    (hs : sfx ∈ ordinalSuffixes) (hd1 : 1 ≤ d) (hd2 : d ≤ 31)
    (hy1 : 1000 ≤ y) (hy2 : y ≤ 9999) :
    parse_date_header (renderHeader wi mi d sfx y)
      = if d ≤ daysInMonth (mi.val + 1) y then some (isoChars y (mi.val + 1) d)
        else none := by
  unfold parse_date_header
  rw [stripOrd_render wi mi d y sfx hd2 hy2 hs, pyStrip_render wi mi d y,
    headerShape_render wi mi d y hd1 hd2 hy2]
  show (if okDate y (mi.val + 1) d = true then some (isoChars y (mi.val + 1) d) else none)
      = _
  by_cases hdm : d ≤ daysInMonth (mi.val + 1) y
  · rw [if_pos hdm, if_pos]
    simp only [okDate, Bool.and_eq_true, decide_eq_true_eq]
    refine ⟨⟨⟨by omega, by omega⟩, hd1⟩, hdm⟩
  · rw [if_neg hdm, if_neg]
    simp only [okDate, Bool.and_eq_true, decide_eq_true_eq]
    intro h
    exact hdm (by tauto)

/-- Claim C1: for every line of the shape `Weekday, Month D, YYYY` built
from the canonical weekday and month names — the day optionally carrying
an ordinal suffix `st`/`nd`/`rd`/`th`, which is stripped — the recognizer
returns the zero-padded ISO date exactly when the named calendar day
exists, and `none` otherwise; an input whose (ordinal-stripped, trimmed)
text does not match the header grammar, or matches it with an invalid
calendar date, yields `none` (no exception: the function is total); and
on a `none` result the extractor's current-date context is unchanged and
scanning continues with the remaining lines. -/
theorem c1_date_header_recognizer :
    (∀ (wi : Fin 7) (mi : Fin 12) (d y : Nat) (sfx : List Nat),
      sfx ∈ ordinalSuffixes → 1 ≤ d → d ≤ 31 → 1000 ≤ y → y ≤ 9999 →
      parse_date_header (renderHeader wi mi d sfx y)
        = if d ≤ daysInMonth (mi.val + 1) y then some (isoChars y (mi.val + 1) d)
          else none)
    ∧ (∀ text : List Nat,
        headerShape (pyStrip (stripOrdinals text)) = none → parse_date_header text = none)
    ∧ (∀ (text : List Nat) (w m d y : Nat),
        headerShape (pyStrip (stripOrdinals text)) = some (w, m, d, y) →
        okDate y m d = false → parse_date_header text = none)
    ∧ (∀ (cur : Option (List Nat)) (line : List Nat),
        parse_date_header line = none → stepDate cur line = cur)
    ∧ (∀ (cur : Option (List Nat)) (line : List Nat) (rest : List (List Nat)),
        headerGate line = true → parse_date_header line = none →
        extractStream cur (line :: rest) = extractStream cur rest) := by
  refine ⟨?_, ?_, ?_, ?_, ?_⟩
  · intro wi mi d y sfx hs hd1 hd2 hy1 hy2
    exact parse_date_header_render wi mi d y sfx hs hd1 hd2 hy1 hy2
  · intro text h
    unfold parse_date_header
    rw [h]
  · intro text w m d y h hbad
    unfold parse_date_header
    rw [h]
    show (if okDate y m d = true then some (isoChars y m d) else none) = none
    rw [hbad]
    simp
  · intro cur line h
    unfold stepDate
    split
    · rw [h]
    · rfl
  · intro cur line rest hg h
    have hstep : stepDate cur line = cur := by
      unfold stepDate
      rw [if_pos hg, h]
    simp only [extractStream, hg, if_true, hstep]

/-- Witness for C1: the rendered header `Monday, December 1st, 2025` is
recognized as `2025-12-01`. -/
theorem c1_witness :
    renderHeader ⟨0, by omega⟩ ⟨11, by omega⟩ 1 (str "st") 2025
        = str "Monday, December 1st, 2025" ∧
    parse_date_header (str "Monday, December 1st, 2025") = some (str "2025-12-01") := by
  refine ⟨by decide, ?_⟩
  have h := c1_date_header_recognizer.1 ⟨0, by omega⟩ ⟨11, by omega⟩ 1 2025 (str "st")
    (by decide) (by decide) (by decide) (by decide) (by decide)
  rw [show str "Monday, December 1st, 2025"
      = renderHeader ⟨0, by omega⟩ ⟨11, by omega⟩ 1 (str "st") 2025 from by decide, h]
  decide

end Scraper
